import Mathlib

/-!
Verification development for the LCR classification-workflow repository.

The repository consists of the notebook `01_materials/notebooks/Classification-2.ipynb`,
whose own code is data cleaning, splitting, and calls into an external ML library.
The specification describes a self-contained cross-validated hyperparameter-search
core (Fold Partitioner, Scorer, Cross-Validator, Grid Search Driver).  The notebook
delegates that core to the external library, so those components are modelled here
from the specification's own algorithm descriptions; the notebook's concrete data
operations (label cleaning, the predicted-column assignment) are embedded directly
from the notebook source.
-/

set_option maxRecDepth 40000

namespace LCR

/-- A record of the dataset: a fixed set of numeric features plus one categorical
label (spec §3).  Features are the numeric cells of a row; the label is the
`diagnosis` value. -/
structure Record where
  features : List ℚ
  label : String
deriving DecidableEq, Repr

/-- A dataset is an ordered sequence of records (spec §3). -/
abbrev Dataset := List Record

/-- Label of record `i` (out-of-range indices give the empty label). -/
def labelAt (ds : Dataset) (i : ℕ) : String :=
  (ds.map Record.label).getD i ""

/-- Feature vector of record `i`. -/
def featAt (ds : Dataset) (i : ℕ) : List ℚ :=
  (ds.map Record.features).getD i []

/-- A pandas-style data frame, embedded as named columns of string cells
(this is the shape the notebook's own code manipulates). -/
structure DataFrame where
  cols : List (String × List String)
deriving DecidableEq, Repr

/-- Names of the columns of a frame, in order. -/
def DataFrame.colNames (df : DataFrame) : List String :=
  df.cols.map Prod.fst

/-- Look up a column's cells by name (first match, as in pandas). -/
def DataFrame.getCol (df : DataFrame) (n : String) : Option (List String) :=
  (df.cols.find? (fun c => decide (c.1 = n))).map Prod.snd

/-- The value mapping of the notebook's cleaning cell:
`cancer["diagnosis"].replace({"M" : "Malignant", "B" : "Benign"})`.
`"M"` becomes `"Malignant"`, `"B"` becomes `"Benign"`, anything else is kept. -/
def replaceMB (s : String) : String :=
  if s = "M" then "Malignant" else if s = "B" then "Benign" else s

/-- The notebook's label-cleaning step (cell 4): reassign the `diagnosis`
column to its `replace`d values; all other columns are untouched. -/
def cleanLabels (df : DataFrame) : DataFrame :=
  ⟨df.cols.map (fun c =>
    if c.1 = "diagnosis" then (c.1, c.2.map replaceMB) else c)⟩

/-- Row selection used by `train_test_split` (cells 11/43): the produced train
and test frames are copies holding the rows at the chosen indices. -/
def selectRows (df : DataFrame) (rows : List ℕ) : DataFrame :=
  ⟨df.cols.map (fun c => (c.1, rows.filterMap (fun i => c.2.get? i)))⟩

/-- The notebook's prediction cell (cell 19):
`cancer_test["predicted"] = knn.predict(...)` assigns the predictions as a new
`predicted` column of the test frame it consumes. -/
def assignPredicted (df : DataFrame) (preds : List String) : DataFrame :=
  ⟨df.cols ++ [("predicted", preds)]⟩

/-- The frames the notebook keeps live: the loaded dataset and the
train/test copies produced from it. -/
structure NotebookState where
  cancer : DataFrame
  train : DataFrame
  test : DataFrame
deriving DecidableEq, Repr

/-- Cell 11: `train_test_split` fills the train and test frames with
row-subset copies of the loaded dataset (the row index sets come from the
library's stratified sampler, taken here as inputs). -/
def splitStep (rowsTrain rowsTest : List ℕ) (s : NotebookState) : NotebookState :=
  ⟨s.cancer, selectRows s.cancer rowsTrain, selectRows s.cancer rowsTest⟩

/-- Cell 19: the prediction step writes the `predicted` column into the test
frame; the other frames are not touched. -/
def predictStep (preds : List String) (s : NotebookState) : NotebookState :=
  ⟨s.cancer, s.train, assignPredicted s.test preds⟩

/-- The notebook's evaluation pipeline after loading and cleaning:
split into train/test, fit (external, stateless here), then predict on the
test frame. -/
def runPipeline (rowsTrain rowsTest : List ℕ) (preds : List String)
    (s : NotebookState) : NotebookState :=
  predictStep preds (splitStep rowsTrain rowsTest s)

/-- The error taxonomy of spec §7. -/
inductive SearchError where
  | insufficientData
  | emptyInput
  | noViableCandidate
deriving DecidableEq, Repr

/-- Modelled from the spec (§4.1, missing from the notebook, which delegates
fold splitting to the external library): the deterministic seed-driven shuffle
of a label group, realised as a rotation by the seed — a deterministic
permutation of the group. -/
def shuffle (seed : ℕ) (l : List ℕ) : List ℕ :=
  l.rotate seed

/-- The dataset's distinct labels, in order of first occurrence. -/
def labelsOf (ds : Dataset) : List String :=
  (ds.map Record.label).dedup

/-- Modelled from the spec (§4.1): the record indices of one label group
("group record indices by label"). -/
def groupOf (ds : Dataset) (lab : String) : List ℕ :=
  (List.range ds.length).filter (fun i => decide (labelAt ds i = lab))

/-- A Fold Assignment maps each record index to a fold id in `[0, C)` (spec §3). -/
abbrev FoldAssignment := ℕ → ℕ

/-- Modelled from the spec (§4.1, missing from the notebook): the Fold
Partitioner.  Requires `fold_count ≥ 2` and `fold_count ≤` the size of every
label class, else `InsufficientDataError`; groups record indices by label,
shuffles each group deterministically with the seed, and deals the shuffled
group round-robin over the folds (a record's fold is its position in its
shuffled group, modulo the fold count). -/
def partition (ds : Dataset) (C : ℕ) (seed : ℕ) :
    Except SearchError FoldAssignment :=
  if 2 ≤ C ∧ ∀ lab ∈ labelsOf ds, C ≤ (groupOf ds lab).length then
    Except.ok (fun i => (shuffle seed (groupOf ds (labelAt ds i))).indexOf i % C)
  else
    Except.error SearchError.insufficientData

/-- True label / predicted label pairs, aligned positionally. -/
def confusionPairs (yTrue yPred : List String) : List (String × String) :=
  yTrue.zip yPred

/-- Records whose true and predicted labels are both the positive label. -/
def truePos (yTrue yPred : List String) (pos : String) : ℕ :=
  ((confusionPairs yTrue yPred).filter
    (fun p => decide (p.1 = pos ∧ p.2 = pos))).length

/-- Records predicted positive whose true label is not the positive label. -/
def falsePos (yTrue yPred : List String) (pos : String) : ℕ :=
  ((confusionPairs yTrue yPred).filter
    (fun p => decide (p.1 ≠ pos ∧ p.2 = pos))).length

/-- Records truly positive but not predicted positive. -/
def falseNeg (yTrue yPred : List String) (pos : String) : ℕ :=
  ((confusionPairs yTrue yPred).filter
    (fun p => decide (p.1 = pos ∧ p.2 ≠ pos))).length

/-- Records neither truly positive nor predicted positive. -/
def trueNeg (yTrue yPred : List String) (pos : String) : ℕ :=
  ((confusionPairs yTrue yPred).filter
    (fun p => decide (p.1 ≠ pos ∧ p.2 ≠ pos))).length

/-- Records whose predicted label matches the true label. -/
def matchCount (yTrue yPred : List String) : ℕ :=
  ((confusionPairs yTrue yPred).filter (fun p => decide (p.1 = p.2))).length

/-- The Scorer's result (spec §4.2): the three metrics, plus the flags that
mark the zero-denominator conditions so callers can tell "no positive
predictions" (resp. "no actual positives") from perfect scores. -/
structure ScoreResult where
  accuracy : ℚ
  precision : ℚ
  recallVal : ℚ
  noPositivePredictions : Bool
  noActualPositives : Bool
deriving DecidableEq, Repr

/-- Modelled from the spec (§4.2, missing from the notebook, which calls the
library's metric functions): the Scorer.  `accuracy = matches / total`
(`EmptyInputError` when total is 0); `precision = TP/(TP+FP)` and
`recall = TP/(TP+FN)`, each defined as 0 with its flag set when the
denominator is 0. -/
def score (yTrue yPred : List String) (pos : String) :
    Except SearchError ScoreResult :=
  if (confusionPairs yTrue yPred).length = 0 then
    Except.error SearchError.emptyInput
  else
    Except.ok
      ⟨(matchCount yTrue yPred : ℚ) / ((confusionPairs yTrue yPred).length : ℚ),
       if truePos yTrue yPred pos + falsePos yTrue yPred pos = 0 then 0
       else (truePos yTrue yPred pos : ℚ) /
         ((truePos yTrue yPred pos : ℚ) + (falsePos yTrue yPred pos : ℚ)),
       if truePos yTrue yPred pos + falseNeg yTrue yPred pos = 0 then 0
       else (truePos yTrue yPred pos : ℚ) /
         ((truePos yTrue yPred pos : ℚ) + (falseNeg yTrue yPred pos : ℚ)),
       truePos yTrue yPred pos + falsePos yTrue yPred pos == 0,
       truePos yTrue yPred pos + falseNeg yTrue yPred pos == 0⟩

/-- Modelled from the spec (§6): the external classifier capability.  Given a
candidate (neighbor count) and the training features and labels, fitting either
fails (`none`, a `ClassifierFailure`) or yields a prediction function. -/
def ClassifierFactory : Type :=
  ℕ → List (List ℚ) → List String → Option (List ℚ → String)

/-- One fold's outcome for one candidate: the fold id and its accuracy
(spec §3, Fold Result). -/
structure FoldResult where
  foldId : ℕ
  accuracy : ℚ
deriving DecidableEq, Repr

/-- A candidate plus its fold results and the derived mean and squared
standard error; `failed` marks a classifier failure (spec §3 and §4.3).
The standard error is carried as its square so the structure stays within
exact rational arithmetic. -/
structure CandidateResult where
  candidate : ℕ
  foldResults : List FoldResult
  mean : ℚ
  semSq : ℚ
  failed : Bool
deriving DecidableEq, Repr

/-- Arithmetic mean of a list of rationals. -/
def listMean (l : List ℚ) : ℚ :=
  l.sum / (l.length : ℚ)

/-- Sample variance (denominator `n - 1`) of a list of rationals. -/
def sampleVar (l : List ℚ) : ℚ :=
  (l.map (fun x => (x - listMean l) ^ 2)).sum / ((l.length - 1 : ℕ) : ℚ)

/-- The validation subset of fold `f`: the record indices assigned to `f`
(spec §4.3). -/
def valIndices (ds : Dataset) (fa : FoldAssignment) (f : ℕ) : List ℕ :=
  (List.range ds.length).filter (fun i => decide (fa i = f))

/-- The training subset of fold `f`: all record indices not assigned to `f`
(spec §4.3). -/
def trainIndices (ds : Dataset) (fa : FoldAssignment) (f : ℕ) : List ℕ :=
  (List.range ds.length).filter (fun i => decide (fa i ≠ f))

/-- Modelled from the spec (§4.3): evaluate one fold for one candidate.
A fresh classifier is built and fitted on the training subset, its
predictions on the validation subset are scored, and the fold's accuracy is
recorded; `none` marks a classifier failure on this fold. -/
def evalFold (ds : Dataset) (pos : String) (factory : ClassifierFactory)
    (k : ℕ) (fa : FoldAssignment) (f : ℕ) :
    Except SearchError (Option FoldResult) :=
  match factory k ((trainIndices ds fa f).map (featAt ds))
      ((trainIndices ds fa f).map (labelAt ds)) with
  | none => Except.ok none
  | some predictor =>
    match score ((valIndices ds fa f).map (labelAt ds))
        ((valIndices ds fa f).map (fun i => predictor (featAt ds i))) pos with
    | Except.error e => Except.error e
    | Except.ok r => Except.ok (some ⟨f, r.accuracy⟩)

/-- Gather the per-fold outcomes: a fatal error propagates, a classifier
failure on any fold makes the whole candidate failed (`none`), otherwise all
fold results are returned. -/
def collectFolds :
    List (Except SearchError (Option FoldResult)) →
      Except SearchError (Option (List FoldResult))
  | [] => Except.ok (some [])
  | Except.error e :: _ => Except.error e
  | Except.ok none :: rest =>
    match collectFolds rest with
    | Except.error e => Except.error e
    | Except.ok _ => Except.ok none
  | Except.ok (some r) :: rest =>
    match collectFolds rest with
    | Except.error e => Except.error e
    | Except.ok none => Except.ok none
    | Except.ok (some rs) => Except.ok (some (r :: rs))

/-- Modelled from the spec (§4.3, missing from the notebook, which calls the
library's `cross_validate`): the Cross-Validator.  Runs every fold in
`[0, C)` for one candidate: a failed fit marks the candidate failed (not
fatal), otherwise the mean and squared standard error
(sample variance / fold count) of the per-fold accuracies are derived. -/
def crossValidate (ds : Dataset) (C : ℕ) (fa : FoldAssignment) (pos : String)
    (factory : ClassifierFactory) (k : ℕ) :
    Except SearchError CandidateResult :=
  match collectFolds ((List.range C).map (evalFold ds pos factory k fa)) with
  | Except.error e => Except.error e
  | Except.ok none => Except.ok ⟨k, [], 0, 0, true⟩
  | Except.ok (some frs) =>
    let accs := frs.map FoldResult.accuracy
    Except.ok ⟨k, frs, listMean accs, sampleVar accs / (C : ℚ), false⟩

/-- The non-failed candidate results, in order. -/
def nonFailed (rs : List CandidateResult) : List CandidateResult :=
  rs.filter (fun r => !r.failed)

/-- Maximum of a head element and a list (total on nonempty data). -/
def maxQ (a : ℚ) : List ℚ → ℚ
  | [] => a
  | b :: l => max a (maxQ b l)

/-- Minimum of a head element and a list. -/
def minN (a : ℕ) : List ℕ → ℕ
  | [] => a
  | b :: l => min a (minN b l)

/-- The floating-point tolerance of the spec's tie-break policy (§4.4): 1e-9. -/
def tol : ℚ := 1 / 1000000000

/-- The maximal mean score among non-failed candidates (0 when all failed;
only used when some candidate survived). -/
def topMean (rs : List CandidateResult) : ℚ :=
  match nonFailed rs with
  | [] => 0
  | r :: rest => maxQ r.mean (rest.map (fun s => s.mean))

/-- The non-failed candidates whose mean is within the tolerance of the
maximal mean — the candidates tied for best (spec §4.4). -/
def tiedSet (rs : List CandidateResult) : List CandidateResult :=
  (nonFailed rs).filter (fun s => decide (topMean rs - tol ≤ s.mean))

/-- Modelled from the spec (§4.4): best-candidate selection.  Failed
candidates are excluded (`NoViableCandidateError` when none survive); among
the candidates whose mean is within 1e-9 of the maximal mean, the smallest
hyperparameter value wins (the spec's explicit tie-break policy). -/
def selectBest (rs : List CandidateResult) : Except SearchError ℕ :=
  match nonFailed rs with
  | [] => Except.error SearchError.noViableCandidate
  | _ :: _ =>
    match tiedSet rs with
    | [] => Except.error SearchError.noViableCandidate
    | t :: ts => Except.ok (minN t.candidate (ts.map (fun s => s.candidate)))

/-- The Search Result (spec §3): all candidate results plus the best
candidate's hyperparameter value. -/
structure SearchResult where
  candidateResults : List CandidateResult
  best : ℕ
deriving DecidableEq, Repr

/-- Propagate the first fatal error out of the per-candidate runs. -/
def collectResults :
    List (Except SearchError CandidateResult) →
      Except SearchError (List CandidateResult)
  | [] => Except.ok []
  | Except.error e :: _ => Except.error e
  | Except.ok r :: rest =>
    match collectResults rest with
    | Except.error e => Except.error e
    | Except.ok rs => Except.ok (r :: rs)

/-- Modelled from the spec (§4.4, missing from the notebook, which calls the
library's `GridSearchCV`): the Grid Search Driver.  One Fold Assignment is
computed up front and shared by every candidate's cross-validation; the
candidates are evaluated in grid order and the best survivor is selected. -/
def search (ds : Dataset) (candidates : List ℕ) (C : ℕ) (pos : String)
    (factory : ClassifierFactory) (seed : ℕ) :
    Except SearchError SearchResult :=
  match partition ds C seed with
  | Except.error e => Except.error e
  | Except.ok fa =>
    match collectResults (candidates.map (crossValidate ds C fa pos factory)) with
    | Except.error e => Except.error e
    | Except.ok rs =>
      match selectBest rs with
      | Except.error e => Except.error e
      | Except.ok b => Except.ok ⟨rs, b⟩

/-- The notebook's hyperparameter grid (cell 54): `range(1, 100, 5)`,
i.e. the neighbor counts 1, 6, 11, …, 96. -/
def gridCandidates : List ℕ :=
  (List.range 20).map (fun i => 5 * i + 1)

/-! Concrete data used to instantiate the theorems below on closed inputs. -/

/-- A 4-record dataset with two label classes of two records each. -/
def ds4 : Dataset := [⟨[0], "P"⟩, ⟨[1], "P"⟩, ⟨[2], "N"⟩, ⟨[3], "N"⟩]

/-- A classifier factory that always fits and always predicts `"P"`. -/
def facP : ClassifierFactory := fun _ _ _ => some (fun _ => "P")

/-- The result of `search ds4 [7, 2] 2 "P" facP 0`: both candidates tie at
mean accuracy 1/2, and the tie-break picks the smaller neighbor count 2. -/
def sr4 : SearchResult :=
  ⟨[⟨7, [⟨0, 1/2⟩, ⟨1, 1/2⟩], 1/2, 0, false⟩,
    ⟨2, [⟨0, 1/2⟩, ⟨1, 1/2⟩], 1/2, 0, false⟩], 2⟩

/-- The result of `search ds4 [1, 2] 2 "P" facP 0`. -/
def sr4b : SearchResult :=
  ⟨[⟨1, [⟨0, 1/2⟩, ⟨1, 1/2⟩], 1/2, 0, false⟩,
    ⟨2, [⟨0, 1/2⟩, ⟨1, 1/2⟩], 1/2, 0, false⟩], 1⟩

/-- The result of `crossValidate ds4 2 (fun i => i % 2) "P" facP 3`. -/
def cr4 : CandidateResult :=
  ⟨3, [⟨0, 1/2⟩, ⟨1, 1/2⟩], 1/2, 0, false⟩

/-- True labels realising the confusion counts TP=42, FP=6, FN=11, TN=84. -/
def yTrueEx : List String :=
  List.replicate 42 "Malignant" ++ (List.replicate 6 "Benign" ++
    (List.replicate 11 "Malignant" ++ List.replicate 84 "Benign"))

/-- Predicted labels realising the confusion counts TP=42, FP=6, FN=11, TN=84. -/
def yPredEx : List String :=
  List.replicate 42 "Malignant" ++ (List.replicate 6 "Malignant" ++
    (List.replicate 11 "Benign" ++ List.replicate 84 "Benign"))

/-- A 569-record dataset with 357 `"Benign"` and 212 `"Malignant"` records of
two numeric features each, the shape of the notebook's training scenario. -/
def ds569 : Dataset :=
  List.replicate 357 ⟨[0, 0], "Benign"⟩ ++ List.replicate 212 ⟨[1, 1], "Malignant"⟩

/-- A classifier factory that always fits and always predicts `"Benign"`. -/
def facB : ClassifierFactory := fun _ _ _ => some (fun _ => "Benign")

/-- A small frame with the notebook's column shapes. -/
def dfEx : DataFrame :=
  ⟨[("id", ["1", "2", "3"]),
    ("diagnosis", ["M", "B", "M"]),
    ("perimeter_mean", ["10", "20", "30"])]⟩

/-- A two-column test frame, as consumed by the prediction cell. -/
def dfTest : DataFrame :=
  ⟨[("id", ["1", "2"]), ("diagnosis", ["Malignant", "Benign"])]⟩

/-! List and arithmetic helper lemmas. -/

theorem countP_or_disjoint {α : Type} (p q : α → Bool) :
    ∀ l : List α, (∀ x ∈ l, ¬(p x = true ∧ q x = true)) →
      l.countP (fun x => p x || q x) = l.countP p + l.countP q
  | [], _ => rfl
  | a :: t, h => by
    rw [List.countP_cons, List.countP_cons, List.countP_cons,
      countP_or_disjoint p q t (fun x hx => h x (List.mem_cons_of_mem a hx))]
    have ha := h a (List.mem_cons_self a t)
    cases hp : p a <;> cases hq : q a <;> simp [hp, hq] at ha ⊢ <;> omega

theorem map_indexOf_eq_range :
    ∀ g : List ℕ, g.Nodup → g.map (fun a => g.indexOf a) = List.range g.length
  | [], _ => rfl
  | a :: t, h => by
    have hat : a ∉ t := (List.nodup_cons.mp h).1
    have ht : t.Nodup := (List.nodup_cons.mp h).2
    have hih := map_indexOf_eq_range t ht
    have hstep : t.map (fun x => (a :: t).indexOf x) = t.map (fun x => t.indexOf x + 1) := by
      apply List.map_congr_left
      intro x hx
      have hax : a ≠ x := fun he => hat (he ▸ hx)
      simpa using List.indexOf_cons_ne t hax
    calc (a :: t).map (fun x => (a :: t).indexOf x)
        = (a :: t).indexOf a :: t.map (fun x => (a :: t).indexOf x) := by
          rw [List.map_cons]
      _ = 0 :: t.map (fun x => t.indexOf x + 1) := by
          rw [List.indexOf_cons_self, hstep]
      _ = 0 :: (t.map (fun x => t.indexOf x)).map (fun j => j + 1) := by
          rw [List.map_map]; rfl
      _ = 0 :: (List.range t.length).map (fun j => j + 1) := by rw [hih]
      _ = List.range (a :: t).length := by
          rw [List.length_cons, List.range_succ_eq_map]

theorem dvd_add_sub_iff_mod {C f : ℕ} (hf : f < C) (m : ℕ) :
    C ∣ m + (C - f) ↔ m % C = f := by
  constructor
  · rintro ⟨t, ht⟩
    match t, ht with
    | 0, ht => omega
    | s + 1, ht =>
      have hms : C * (s + 1) = C * s + C := Nat.mul_succ C s
      have hm : m = C * s + f := by omega
      rw [hm, Nat.add_comm (C * s) f, Nat.add_mul_mod_self_left]
      exact Nat.mod_eq_of_lt hf
  · intro h
    refine ⟨m / C + 1, ?_⟩
    have hdm := Nat.div_add_mod m C
    have hmsu : C * (m / C + 1) = C * (m / C) + C := Nat.mul_succ C (m / C)
    omega

theorem countP_range_mod {C f : ℕ} (hC : 0 < C) (hf : f < C) :
    ∀ m, (List.range m).countP (fun j => decide (j % C = f)) = (m + (C - 1 - f)) / C
  | 0 => by
    have hlt : C - 1 - f < C := by omega
    simp [Nat.div_eq_of_lt hlt]
  | m + 1 => by
    rw [List.range_succ, List.countP_append, countP_range_mod hC hf m,
      List.countP_singleton]
    have h1 : m + 1 + (C - 1 - f) = m + (C - 1 - f) + 1 := by omega
    have h3 : m + (C - 1 - f) + 1 = m + (C - f) := by omega
    have h2 : (C ∣ m + (C - 1 - f) + 1) ↔ m % C = f := by
      rw [h3]; exact dvd_add_sub_iff_mod hf m
    rw [h1, Nat.succ_div]
    by_cases hm : m % C = f <;> simp [h2, hm]

theorem count_fold_share_bound {C f : ℕ} (hC : 0 < C) (hf : f < C) (m : ℕ) :
    |(((List.range m).countP (fun j => decide (j % C = f)) : ℚ)) - (m : ℚ) / (C : ℚ)| ≤ 1 := by
  rw [countP_range_mod hC hf m]
  have hCq : (0 : ℚ) < (C : ℚ) := by exact_mod_cast hC
  have hd : C - 1 - f ≤ C - 1 := by omega
  have hup : (((m + (C - 1 - f)) / C : ℕ) : ℚ) ≤ ((m + (C - 1 - f) : ℕ) : ℚ) / (C : ℚ) :=
    Nat.cast_div_le
  have hsplit : ((m + (C - 1 - f) : ℕ) : ℚ) / (C : ℚ)
      = (m : ℚ) / (C : ℚ) + ((C - 1 - f : ℕ) : ℚ) / (C : ℚ) := by
    push_cast
    ring
  have hdle : ((C - 1 - f : ℕ) : ℚ) / (C : ℚ) ≤ 1 := by
    rw [div_le_one hCq]
    exact_mod_cast Nat.le_of_lt (by omega : C - 1 - f < C)
  have hlow1 : (m / C : ℕ) ≤ (m + (C - 1 - f)) / C :=
    Nat.div_le_div_right (Nat.le_add_right m _)
  have hlow2 : (m : ℚ) / (C : ℚ) < ((m / C : ℕ) : ℚ) + 1 := by
    rw [div_lt_iff₀ hCq]
    have hmod := Nat.div_add_mod m C
    have hmlt : m % C < C := Nat.mod_lt m hC
    have hnat : m < C * (m / C) + C := by omega
    have hq : (m : ℚ) < (C : ℚ) * ((m / C : ℕ) : ℚ) + (C : ℚ) := by exact_mod_cast hnat
    calc (m : ℚ) < (C : ℚ) * ((m / C : ℕ) : ℚ) + (C : ℚ) := hq
      _ = (((m / C : ℕ) : ℚ) + 1) * (C : ℚ) := by ring
  have hlow3 : ((m / C : ℕ) : ℚ) ≤ (((m + (C - 1 - f)) / C : ℕ) : ℚ) := by
    exact_mod_cast hlow1
  rw [abs_le]
  constructor
  · linarith
  · linarith

theorem getD_countP_range {α : Type} [DecidableEq α] (d x : α) :
    ∀ l : List α,
      (List.range l.length).countP (fun i => decide (l.getD i d = x)) = l.count x
  | [] => rfl
  | a :: t => by
    rw [List.length_cons, List.range_succ_eq_map, List.countP_cons, List.countP_map]
    have hcomp : ((fun i => decide ((a :: t).getD i d = x)) ∘ Nat.succ)
        = (fun i => decide (t.getD i d = x)) := by
      funext i
      simp [List.getD_cons_succ]
    rw [hcomp, getD_countP_range d x t, List.count_cons]
    by_cases hax : a = x
    · simp [List.getD_cons_zero, hax]
    · simp [List.getD_cons_zero, hax, Ne.symm hax]

/-! Lemmas about the Fold Partitioner. -/

theorem mem_groupOf {ds : Dataset} {lab : String} {i : ℕ} :
    i ∈ groupOf ds lab ↔ i < ds.length ∧ labelAt ds i = lab := by
  simp [groupOf, List.mem_filter, List.mem_range]

theorem nodup_groupOf (ds : Dataset) (lab : String) : (groupOf ds lab).Nodup :=
  (List.nodup_range ds.length).filter _

theorem length_groupOf (ds : Dataset) (lab : String) :
    (groupOf ds lab).length = (ds.map Record.label).count lab := by
  rw [groupOf, ← List.countP_eq_length_filter]
  have hlen : ds.length = (ds.map Record.label).length := (List.length_map ds Record.label).symm
  rw [show (fun i => decide (labelAt ds i = lab))
      = (fun i => decide ((ds.map Record.label).getD i "" = lab)) from rfl, hlen]
  exact getD_countP_range "" lab (ds.map Record.label)

theorem labelAt_mem_labelsOf {ds : Dataset} {i : ℕ} (hi : i < ds.length) :
    labelAt ds i ∈ labelsOf ds := by
  have hi2 : i < (ds.map Record.label).length := by
    rw [List.length_map]; exact hi
  have : labelAt ds i ∈ ds.map Record.label := by
    rw [labelAt, List.getD_eq_getElem _ _ hi2]
    exact List.getElem_mem hi2
  exact List.mem_dedup.mpr this

theorem partition_ok {ds : Dataset} {C seed : ℕ}
    (h : 2 ≤ C ∧ ∀ lab ∈ labelsOf ds, C ≤ (groupOf ds lab).length) :
    partition ds C seed =
      Except.ok (fun i => (shuffle seed (groupOf ds (labelAt ds i))).indexOf i % C) := by
  rw [partition, if_pos h]

theorem shuffle_perm (seed : ℕ) (l : List ℕ) : List.Perm (shuffle seed l) l :=
  List.rotate_perm l seed

theorem length_shuffle (seed : ℕ) (l : List ℕ) : (shuffle seed l).length = l.length :=
  List.length_rotate l seed

theorem nodup_shuffle {seed : ℕ} {l : List ℕ} (h : l.Nodup) : (shuffle seed l).Nodup :=
  ((shuffle_perm seed l).nodup_iff).mpr h

theorem groupOf_fold_count (ds : Dataset) (C seed f : ℕ) (lab : String) :
    ((groupOf ds lab).filter (fun i =>
        decide ((shuffle seed (groupOf ds (labelAt ds i))).indexOf i % C = f))).length
      = (List.range (groupOf ds lab).length).countP (fun j => decide (j % C = f)) := by
  rw [← List.countP_eq_length_filter]
  have step1 : (groupOf ds lab).countP (fun i =>
        decide ((shuffle seed (groupOf ds (labelAt ds i))).indexOf i % C = f))
      = (groupOf ds lab).countP (fun i =>
        decide ((shuffle seed (groupOf ds lab)).indexOf i % C = f)) := by
    apply List.countP_congr
    intro i hi
    rw [(mem_groupOf.mp hi).2]
  rw [step1]
  rw [← (shuffle_perm seed (groupOf ds lab)).countP_eq]
  have hnd : (shuffle seed (groupOf ds lab)).Nodup := nodup_shuffle (nodup_groupOf ds lab)
  have hmap := map_indexOf_eq_range (shuffle seed (groupOf ds lab)) hnd
  have hcomp : (fun i => decide ((shuffle seed (groupOf ds lab)).indexOf i % C = f))
      = ((fun j => decide (j % C = f)) ∘ (fun a => (shuffle seed (groupOf ds lab)).indexOf a)) :=
    rfl
  rw [hcomp, ← List.countP_map, hmap, length_shuffle]

/-! Lemmas about the Scorer. -/

theorem matchCount_eq_tp_add_tn {yT yP : List String} {pos neg : String}
    (hT : ∀ s ∈ yT, s = pos ∨ s = neg) (hP : ∀ s ∈ yP, s = pos ∨ s = neg) :
    matchCount yT yP = truePos yT yP pos + trueNeg yT yP pos := by
  rw [matchCount, truePos, trueNeg, ← List.countP_eq_length_filter,
    ← List.countP_eq_length_filter, ← List.countP_eq_length_filter]
  rw [← countP_or_disjoint (fun p => decide (p.1 = pos ∧ p.2 = pos))
      (fun p => decide (p.1 ≠ pos ∧ p.2 ≠ pos)) (confusionPairs yT yP)
      (by
        intro x _ hx
        rw [decide_eq_true_iff, decide_eq_true_iff] at hx
        exact hx.2.1 hx.1.1)]
  apply List.countP_congr
  intro x hx
  obtain ⟨hx1, hx2⟩ := List.of_mem_zip hx
  simp only [decide_eq_true_iff, Bool.or_eq_true]
  constructor
  · intro heq
    rcases hT x.1 hx1 with h1 | h1
    · exact Or.inl ⟨h1, heq ▸ h1⟩
    · rcases hP x.2 hx2 with h2 | h2
      · exact Or.inl ⟨heq ▸ h2, h2⟩
      · by_cases hxp : x.1 = pos
        · exact Or.inl ⟨hxp, heq ▸ hxp⟩
        · exact Or.inr ⟨hxp, fun hc => hxp (heq ▸ hc)⟩
  · rintro (⟨h1, h2⟩ | ⟨h1, h2⟩)
    · rw [h1, h2]
    · rcases hT x.1 hx1 with h3 | h3
      · exact absurd h3 h1
      · rcases hP x.2 hx2 with h4 | h4
        · exact absurd h4 h2
        · rw [h3, h4]

theorem truePos_eq_zero (yT : List String) {yP : List String} {pos : String}
    (hnp : ∀ s ∈ yP, s ≠ pos) : truePos yT yP pos = 0 := by
  rw [truePos, ← List.countP_eq_length_filter]
  rw [List.countP_eq_zero]
  intro x hx hc
  rw [decide_eq_true_iff] at hc
  exact hnp x.2 (List.of_mem_zip hx).2 hc.2

theorem falsePos_eq_zero (yT : List String) {yP : List String} {pos : String}
    (hnp : ∀ s ∈ yP, s ≠ pos) : falsePos yT yP pos = 0 := by
  rw [falsePos, ← List.countP_eq_length_filter]
  rw [List.countP_eq_zero]
  intro x hx hc
  rw [decide_eq_true_iff] at hc
  exact hnp x.2 (List.of_mem_zip hx).2 hc.2

theorem falseNeg_eq_zero {yT : List String} (yP : List String) {pos : String}
    (hnt : ∀ s ∈ yT, s ≠ pos) : falseNeg yT yP pos = 0 := by
  rw [falseNeg, ← List.countP_eq_length_filter]
  rw [List.countP_eq_zero]
  intro x hx hc
  rw [decide_eq_true_iff] at hc
  exact hnt x.1 (List.of_mem_zip hx).1 hc.1

/-! Lemmas about best-candidate selection. -/

theorem le_maxQ_left (a : ℚ) : ∀ l : List ℚ, a ≤ maxQ a l
  | [] => le_refl a
  | b :: l => by
    rw [maxQ]
    exact le_max_left a (maxQ b l)

theorem le_maxQ_mem (a x : ℚ) : ∀ l : List ℚ, x ∈ l → x ≤ maxQ a l
  | b :: l, hx => by
    rw [maxQ]
    rcases List.mem_cons.mp hx with h | h
    · exact le_trans (h ▸ le_maxQ_left x l) (le_max_right a (maxQ b l))
    · exact le_trans (le_maxQ_mem b x l h) (le_max_right a (maxQ b l))

theorem maxQ_mem_or (a : ℚ) : ∀ l : List ℚ, maxQ a l = a ∨ maxQ a l ∈ l
  | [] => Or.inl rfl
  | b :: l => by
    rw [maxQ]
    rcases max_choice a (maxQ b l) with h1 | h1
    · exact Or.inl h1
    · rw [h1]
      rcases maxQ_mem_or b l with h | h
      · rw [h]
        exact Or.inr (List.mem_cons_self b l)
      · exact Or.inr (List.mem_cons_of_mem b h)

theorem minN_le_left (a : ℕ) : ∀ l : List ℕ, minN a l ≤ a
  | [] => le_refl a
  | b :: l => by
    rw [minN]
    exact min_le_left a (minN b l)

theorem minN_le_mem (a x : ℕ) : ∀ l : List ℕ, x ∈ l → minN a l ≤ x
  | b :: l, hx => by
    rw [minN]
    rcases List.mem_cons.mp hx with h | h
    · exact le_trans (min_le_right a (minN b l)) (h ▸ minN_le_left b l)
    · exact le_trans (min_le_right a (minN b l)) (minN_le_mem b x l h)

theorem minN_mem_or (a : ℕ) : ∀ l : List ℕ, minN a l = a ∨ minN a l ∈ l
  | [] => Or.inl rfl
  | b :: l => by
    rw [minN]
    rcases min_choice a (minN b l) with h1 | h1
    · exact Or.inl h1
    · rw [h1]
      rcases minN_mem_or b l with h | h
      · rw [h]
        exact Or.inr (List.mem_cons_self b l)
      · exact Or.inr (List.mem_cons_of_mem b h)

theorem topMean_eq {rs : List CandidateResult} {r0 : CandidateResult}
    {rest : List CandidateResult} (hnf : nonFailed rs = r0 :: rest) :
    topMean rs = maxQ r0.mean (rest.map (fun s => s.mean)) := by
  rw [topMean, hnf]

theorem mean_le_topMean {rs : List CandidateResult} {r : CandidateResult}
    (hr : r ∈ nonFailed rs) : r.mean ≤ topMean rs := by
  rcases hnf : nonFailed rs with _ | ⟨r0, rest⟩
  · rw [hnf] at hr
    cases hr
  · rw [hnf] at hr
    rw [topMean_eq hnf]
    rcases List.mem_cons.mp hr with h | h
    · rw [h]
      exact le_maxQ_left r0.mean (rest.map (fun s => s.mean))
    · exact le_maxQ_mem r0.mean r.mean (rest.map (fun s => s.mean))
        (List.mem_map_of_mem (fun s => s.mean) h)

theorem topMean_attained {rs : List CandidateResult} (h : nonFailed rs ≠ []) :
    ∃ s ∈ nonFailed rs, s.mean = topMean rs := by
  rcases hnf : nonFailed rs with _ | ⟨r0, rest⟩
  · exact absurd hnf h
  · rw [topMean_eq hnf]
    rcases maxQ_mem_or r0.mean (rest.map (fun s => s.mean)) with hm | hm
    · exact ⟨r0, List.mem_cons_self r0 rest, hm.symm⟩
    · obtain ⟨s, hs, hsm⟩ := List.mem_map.mp hm
      exact ⟨s, List.mem_cons_of_mem r0 hs, hsm⟩

theorem tol_pos : (0 : ℚ) < tol := by norm_num [tol]

theorem tiedSet_ne_nil {rs : List CandidateResult} (h : nonFailed rs ≠ []) :
    tiedSet rs ≠ [] := by
  obtain ⟨s, hs, hsm⟩ := topMean_attained h
  have hmem : s ∈ tiedSet rs := by
    rw [tiedSet]
    refine List.mem_filter.mpr ⟨hs, ?_⟩
    rw [decide_eq_true_iff, hsm]
    have := tol_pos
    linarith
  exact List.ne_nil_of_mem hmem

theorem selectBest_ok_inv {rs : List CandidateResult} {b : ℕ}
    (h : selectBest rs = Except.ok b) :
    b ∈ (tiedSet rs).map (fun r => r.candidate) ∧
      ∀ r ∈ tiedSet rs, b ≤ r.candidate := by
  rw [selectBest] at h
  rcases hnf : nonFailed rs with _ | ⟨r0, rest⟩
  · rw [hnf] at h
    cases h
  · rw [hnf] at h
    rcases hts : tiedSet rs with _ | ⟨t, ts⟩
    · rw [hts] at h
      cases h
    · rw [hts] at h
      have hb : minN t.candidate (ts.map (fun s => s.candidate)) = b := by
        injection h
      rw [← hb]
      constructor
      · rw [List.map_cons]
        rcases minN_mem_or t.candidate (ts.map (fun s => s.candidate)) with hm | hm
        · rw [hm]
          exact List.mem_cons_self _ _
        · exact List.mem_cons_of_mem _ hm
      · intro r hr
        rcases List.mem_cons.mp hr with h1 | h1
        · rw [h1]
          exact minN_le_left t.candidate (ts.map (fun s => s.candidate))
        · exact minN_le_mem t.candidate r.candidate (ts.map (fun s => s.candidate))
            (List.mem_map_of_mem (fun s => s.candidate) h1)

theorem selectBest_isOk {rs : List CandidateResult} (h : nonFailed rs ≠ []) :
    ∃ b, selectBest rs = Except.ok b := by
  rw [selectBest]
  rcases hnf : nonFailed rs with _ | ⟨r0, rest⟩
  · exact absurd hnf h
  · rcases hts : tiedSet rs with _ | ⟨t, ts⟩
    · exact absurd hts (tiedSet_ne_nil h)
    · exact ⟨minN t.candidate (ts.map (fun s => s.candidate)), rfl⟩

/-! Lemmas about the Cross-Validator and the Grid Search Driver. -/

theorem collectFolds_all_some {F : ℕ → Except SearchError (Option FoldResult)} :
    ∀ l : List ℕ, (∀ x ∈ l, ∃ r, F x = Except.ok (some r)) →
      ∃ out, collectFolds (l.map F) = Except.ok (some out) ∧ out.length = l.length
  | [], _ => ⟨[], rfl, rfl⟩
  | a :: t, h => by
    obtain ⟨r, hr⟩ := h a (List.mem_cons_self a t)
    obtain ⟨out, hout, hlen⟩ :=
      collectFolds_all_some t (fun x hx => h x (List.mem_cons_of_mem a hx))
    refine ⟨r :: out, ?_, by simp [hlen]⟩
    rw [List.map_cons, hr, collectFolds, hout]

theorem collectFolds_some_length :
    ∀ (l : List (Except SearchError (Option FoldResult))) (out : List FoldResult),
      collectFolds l = Except.ok (some out) → out.length = l.length
  | [], out, h => by
    rw [collectFolds] at h
    injection h with h
    injection h with h
    rw [← h]
    rfl
  | Except.error e :: t, out, h => by
    rw [collectFolds] at h
    cases h
  | Except.ok none :: t, out, h => by
    rw [collectFolds] at h
    rcases ht : collectFolds t with e | o
    · rw [ht] at h
      cases h
    · rw [ht] at h
      injection h with h
      cases h
  | Except.ok (some r) :: t, out, h => by
    rw [collectFolds] at h
    rcases ht : collectFolds t with e | o
    · rw [ht] at h
      cases h
    · rw [ht] at h
      rcases o with _ | rs
      · injection h with h
        cases h
      · injection h with h
        injection h with h
        rw [← h, List.length_cons, List.length_cons,
          collectFolds_some_length t rs ht]

theorem crossValidate_ok {ds : Dataset} {C : ℕ} {fa : FoldAssignment}
    {pos : String} {factory : ClassifierFactory} {k : ℕ}
    (h : ∀ f ∈ List.range C, ∃ r, evalFold ds pos factory k fa f = Except.ok (some r)) :
    ∃ cr, crossValidate ds C fa pos factory k = Except.ok cr ∧
      cr.candidate = k ∧ cr.foldResults.length = C ∧ cr.failed = false := by
  obtain ⟨out, hout, hlen⟩ := collectFolds_all_some (List.range C) h
  rw [List.length_range] at hlen
  refine ⟨⟨k, out, listMean (out.map FoldResult.accuracy),
    sampleVar (out.map FoldResult.accuracy) / (C : ℚ), false⟩, ?_, rfl, hlen, rfl⟩
  rw [crossValidate, hout]

theorem crossValidate_ok_inv {ds : Dataset} {C : ℕ} {fa : FoldAssignment}
    {pos : String} {factory : ClassifierFactory} {k : ℕ} {cr : CandidateResult}
    (h : crossValidate ds C fa pos factory k = Except.ok cr)
    (hfail : cr.failed = false) :
    ∃ frs, cr = ⟨k, frs, listMean (frs.map FoldResult.accuracy),
        sampleVar (frs.map FoldResult.accuracy) / (C : ℚ), false⟩ ∧
      frs.length = C := by
  rw [crossValidate] at h
  rcases hcf : collectFolds ((List.range C).map (evalFold ds pos factory k fa))
    with e | o
  · rw [hcf] at h
    cases h
  · rw [hcf] at h
    rcases o with _ | frs
    · injection h with h
      rw [← h] at hfail
      cases hfail
    · injection h with h
      refine ⟨frs, h.symm, ?_⟩
      have hl := collectFolds_some_length _ frs hcf
      rw [List.length_map, List.length_range] at hl
      exact hl

theorem collectResults_map_ok {F : ℕ → Except SearchError CandidateResult}
    (P : CandidateResult → Prop) :
    ∀ l : List ℕ, (∀ x ∈ l, ∃ r, F x = Except.ok r ∧ P r) →
      ∃ out, collectResults (l.map F) = Except.ok out ∧
        out.length = l.length ∧ ∀ r ∈ out, P r
  | [], _ => ⟨[], rfl, rfl, by simp⟩
  | a :: t, h => by
    obtain ⟨r, hr, hP⟩ := h a (List.mem_cons_self a t)
    obtain ⟨out, hout, hlen, hall⟩ :=
      collectResults_map_ok P t (fun x hx => h x (List.mem_cons_of_mem a hx))
    refine ⟨r :: out, ?_, by simp [hlen], ?_⟩
    · rw [List.map_cons, hr, collectResults, hout]
    · intro x hx
      rcases List.mem_cons.mp hx with h1 | h1
      · rw [h1]
        exact hP
      · exact hall x h1

theorem collectResults_map_inv {F : ℕ → Except SearchError CandidateResult} :
    ∀ (l : List ℕ) (out : List CandidateResult),
      collectResults (l.map F) = Except.ok out →
        out.length = l.length ∧
        ∀ i, i < l.length → i < out.length →
          F (l.getD i 0) = Except.ok (out.getD i ⟨0, [], 0, 0, true⟩)
  | [], out, h => by
    rw [List.map_nil, collectResults] at h
    injection h with h
    rw [← h]
    exact ⟨rfl, fun i hi _ => absurd hi (by simp)⟩
  | a :: t, out, h => by
    rw [collectResults.eq_def, List.map_cons] at h
    rcases hFa : F a with e | r
    · rw [hFa] at h
      cases h
    · rw [hFa] at h
      dsimp only at h
      rcases ht : collectResults (t.map F) with e | rs
      · rw [ht] at h
        cases h
      · rw [ht] at h
        injection h with h
        obtain ⟨hlen, hget⟩ := collectResults_map_inv t rs ht
        rw [← h]
        refine ⟨by simp [hlen], ?_⟩
        intro i hi hj
        match i with
        | 0 =>
          rw [List.getD_cons_zero, List.getD_cons_zero]
          exact hFa
        | i + 1 =>
          rw [List.getD_cons_succ, List.getD_cons_succ]
          exact hget i (by simpa using hi) (by simpa using hj)

theorem search_ok_inv {ds : Dataset} {cands : List ℕ} {C : ℕ} {pos : String}
    {factory : ClassifierFactory} {seed : ℕ} {sr : SearchResult}
    (h : search ds cands C pos factory seed = Except.ok sr) :
    ∃ fa, partition ds C seed = Except.ok fa ∧
      collectResults (cands.map (crossValidate ds C fa pos factory))
        = Except.ok sr.candidateResults ∧
      selectBest sr.candidateResults = Except.ok sr.best := by
  rw [search] at h
  rcases hp : partition ds C seed with e | fa
  · rw [hp] at h
    cases h
  · rw [hp] at h
    dsimp only at h
    rcases hcr : collectResults (cands.map (crossValidate ds C fa pos factory))
      with e | rs
    · rw [hcr] at h
      cases h
    · rw [hcr] at h
      dsimp only at h
      rcases hsb : selectBest rs with e | b
      · rw [hsb] at h
        cases h
      · rw [hsb] at h
        injection h with h
        rw [← h]
        exact ⟨fa, rfl, hcr, hsb⟩

theorem score_isOk {yT yP : List String} (pos : String)
    (h : (confusionPairs yT yP).length ≠ 0) :
    score yT yP pos = Except.ok
      ⟨(matchCount yT yP : ℚ) / ((confusionPairs yT yP).length : ℚ),
       if truePos yT yP pos + falsePos yT yP pos = 0 then 0
       else (truePos yT yP pos : ℚ) /
         ((truePos yT yP pos : ℚ) + (falsePos yT yP pos : ℚ)),
       if truePos yT yP pos + falseNeg yT yP pos = 0 then 0
       else (truePos yT yP pos : ℚ) /
         ((truePos yT yP pos : ℚ) + (falseNeg yT yP pos : ℚ)),
       truePos yT yP pos + falsePos yT yP pos == 0,
       truePos yT yP pos + falseNeg yT yP pos == 0⟩ := by
  rw [score, if_neg h]

theorem evalFold_ok {ds : Dataset} {pos : String} {factory : ClassifierFactory}
    {k : ℕ} {fa : FoldAssignment} {f : ℕ}
    (hfac : ∀ kk X y, (factory kk X y).isSome = true)
    (hval : valIndices ds fa f ≠ []) :
    ∃ r, evalFold ds pos factory k fa f = Except.ok (some r) := by
  rw [evalFold.eq_def]
  obtain ⟨predictor, hpred⟩ := Option.isSome_iff_exists.mp (hfac k
    ((trainIndices ds fa f).map (featAt ds)) ((trainIndices ds fa f).map (labelAt ds)))
  rw [hpred]
  dsimp only
  have hlen : (confusionPairs ((valIndices ds fa f).map (labelAt ds))
      ((valIndices ds fa f).map (fun i => predictor (featAt ds i)))).length ≠ 0 := by
    rw [confusionPairs, List.length_zip, List.length_map, List.length_map, min_self]
    intro h0
    exact hval (List.length_eq_zero.mp h0)
  rw [score_isOk pos hlen]
  exact ⟨_, rfl⟩

theorem valIndices_ne_nil {ds : Dataset} {C seed f : ℕ} {lab : String}
    (hf : f < C) (hflen : f < (groupOf ds lab).length) :
    valIndices ds
      (fun i => (shuffle seed (groupOf ds (labelAt ds i))).indexOf i % C) f ≠ [] := by
  have hglen : (shuffle seed (groupOf ds lab)).length = (groupOf ds lab).length :=
    length_shuffle seed _
  have hfg : f < (shuffle seed (groupOf ds lab)).length := by
    rw [hglen]
    exact hflen
  have hxg : (shuffle seed (groupOf ds lab))[f] ∈ shuffle seed (groupOf ds lab) :=
    List.getElem_mem hfg
  have hxgrp : (shuffle seed (groupOf ds lab))[f] ∈ groupOf ds lab :=
    ((shuffle_perm seed (groupOf ds lab)).mem_iff).mp hxg
  have hxlab : labelAt ds ((shuffle seed (groupOf ds lab))[f]) = lab :=
    (mem_groupOf.mp hxgrp).2
  have hxlt : (shuffle seed (groupOf ds lab))[f] < ds.length :=
    (mem_groupOf.mp hxgrp).1
  have hnd : (shuffle seed (groupOf ds lab)).Nodup :=
    nodup_shuffle (nodup_groupOf ds lab)
  have hidx : (shuffle seed (groupOf ds lab)).indexOf
      ((shuffle seed (groupOf ds lab))[f]) = f := by
    have hmap := map_indexOf_eq_range (shuffle seed (groupOf ds lab)) hnd
    have hb : f < ((shuffle seed (groupOf ds lab)).map
        (fun a => (shuffle seed (groupOf ds lab)).indexOf a)).length := by
      simpa using hfg
    have h1 := List.getElem_of_eq hmap hb
    rw [List.getElem_map, List.getElem_range] at h1
    exact h1
  have hmem : (shuffle seed (groupOf ds lab))[f] ∈ valIndices ds
      (fun i => (shuffle seed (groupOf ds (labelAt ds i))).indexOf i % C) f := by
    rw [valIndices]
    refine List.mem_filter.mpr ⟨List.mem_range.mpr hxlt, ?_⟩
    rw [decide_eq_true_iff, hxlab, hidx, Nat.mod_eq_of_lt hf]
  exact List.ne_nil_of_mem hmem

theorem ratCast_list_sum :
    ∀ l : List ℚ, ((l.sum : ℚ) : ℝ) = (l.map (fun q => (Rat.cast q : ℝ))).sum
  | [] => by simp
  | a :: t => by
    rw [List.sum_cons, List.map_cons, List.sum_cons, Rat.cast_add, ratCast_list_sum t]

theorem sampleVar_nonneg (l : List ℚ) : 0 ≤ sampleVar l := by
  rw [sampleVar]
  apply div_nonneg
  · apply List.sum_nonneg
    intro x hx
    obtain ⟨a, _, ha⟩ := List.mem_map.mp hx
    rw [← ha]
    exact sq_nonneg _
  · exact Nat.cast_nonneg _

theorem ratCast_sq_dev_sum (m : ℚ) : ∀ l : List ℚ,
    (((l.map (fun x => (x - m) ^ 2)).sum : ℚ) : ℝ)
      = (l.map (fun x => ((Rat.cast x : ℝ) - (Rat.cast m : ℝ)) ^ 2)).sum
  | [] => by simp
  | a :: t => by
    rw [List.map_cons, List.sum_cons, List.map_cons, List.sum_cons, Rat.cast_add,
      ratCast_sq_dev_sum m t]
    push_cast
    ring

/-! The claims. -/

/-- C1: for every pair of 143-record binary label sequences whose confusion
counts are TP=42, FP=6, FN=11, TN=84, the Scorer returns exactly
accuracy = (42+84)/143, precision = 42/48, recall = 42/53 (with no
zero-denominator flag raised). -/
theorem scorer_confusion_example (yT yP : List String) (pos neg : String)
    (hT : ∀ s ∈ yT, s = pos ∨ s = neg) (hP : ∀ s ∈ yP, s = pos ∨ s = neg)
    (hlT : yT.length = 143) (hlP : yP.length = 143)
    (htp : truePos yT yP pos = 42) (hfp : falsePos yT yP pos = 6)
    (hfn : falseNeg yT yP pos = 11) (htn : trueNeg yT yP pos = 84) :
    score yT yP pos =
      Except.ok ⟨((42 : ℚ) + 84) / 143, (42 : ℚ) / 48, (42 : ℚ) / 53, false, false⟩ := by
  have htotal : (confusionPairs yT yP).length = 143 := by
    rw [confusionPairs, List.length_zip, hlT, hlP, min_self]
  have hmc : matchCount yT yP = 126 := by
    rw [matchCount_eq_tp_add_tn hT hP, htp, htn]
  rw [score_isOk pos (by rw [htotal]; norm_num), htotal, hmc, htp, hfp, hfn]
  norm_num

/-- C1 witness: concrete 143-record label sequences realising the counts. -/
theorem scorer_confusion_example_witness :
    score yTrueEx yPredEx "Malignant" =
      Except.ok ⟨((42 : ℚ) + 84) / 143, (42 : ℚ) / 48, (42 : ℚ) / 53, false, false⟩ :=
  scorer_confusion_example yTrueEx yPredEx "Malignant" "Benign"
    (by decide) (by decide) (by decide) (by decide)
    (by decide) (by decide) (by decide) (by decide)

/-- C2: whenever a search succeeds and several non-failed candidates attain
the maximal mean within the 1e-9 tolerance (the tied set), the returned best
candidate is the smallest hyperparameter value among the tied candidates —
regardless of grid order. -/
theorem grid_search_tie_break_smallest_k (ds : Dataset) (cands : List ℕ) (C : ℕ)
    (pos : String) (factory : ClassifierFactory) (seed : ℕ) (sr : SearchResult)
    (h : search ds cands C pos factory seed = Except.ok sr)
    (_hsev : 2 ≤ (tiedSet sr.candidateResults).length) :
    (∀ r ∈ nonFailed sr.candidateResults, r.mean ≤ topMean sr.candidateResults) ∧
    sr.best ∈ (tiedSet sr.candidateResults).map (fun r => r.candidate) ∧
    ∀ r ∈ tiedSet sr.candidateResults, sr.best ≤ r.candidate := by
  obtain ⟨fa, hp, hcr, hsb⟩ := search_ok_inv h
  obtain ⟨hmem, hmin⟩ := selectBest_ok_inv hsb
  exact ⟨fun r hr => mean_le_topMean hr, hmem, hmin⟩

/-- C2 witness: a concrete search over candidates [7, 2] in which both tie
and the best candidate is 2, the smaller value, not 7, the first in grid
order. -/
theorem grid_search_tie_break_smallest_k_witness :
    (∀ r ∈ nonFailed sr4.candidateResults, r.mean ≤ topMean sr4.candidateResults) ∧
    sr4.best ∈ (tiedSet sr4.candidateResults).map (fun r => r.candidate) ∧
    ∀ r ∈ tiedSet sr4.candidateResults, sr4.best ≤ r.candidate :=
  grid_search_tie_break_smallest_k ds4 [7, 2] 2 "P" facP 0 sr4
    (by with_unfolding_all rfl) (by with_unfolding_all decide)

/-- C3: for fold count C ≥ 2 and a dataset whose every label class has at
least C records, the Fold Partitioner succeeds, assigns every record index a
fold id in [0, C), and in every fold the number of records of each label
differs from the evenly-proportional share (class size / C) by at most one
record. -/
theorem fold_partitioner_stratified (ds : Dataset) (C seed : ℕ) (hC : 2 ≤ C)
    (hmin : ∀ lab ∈ labelsOf ds, C ≤ (groupOf ds lab).length) :
    ∃ fa, partition ds C seed = Except.ok fa ∧
      (∀ i, i < ds.length → fa i < C) ∧
      (∀ f, f < C → ∀ lab ∈ labelsOf ds,
        |((((groupOf ds lab).filter (fun i => decide (fa i = f))).length : ℚ)
            - ((groupOf ds lab).length : ℚ) / (C : ℚ))| ≤ 1) := by
  have hC0 : 0 < C := by omega
  refine ⟨fun i => (shuffle seed (groupOf ds (labelAt ds i))).indexOf i % C,
    partition_ok ⟨hC, hmin⟩, fun i _ => Nat.mod_lt _ hC0, ?_⟩
  intro f hf lab _
  rw [groupOf_fold_count ds C seed f lab]
  exact count_fold_share_bound hC0 hf (groupOf ds lab).length

/-- C3 witness: the partitioner on the concrete 4-record dataset with 2
folds. -/
theorem fold_partitioner_stratified_witness :
    ∃ fa, partition ds4 2 5 = Except.ok fa ∧
      (∀ i, i < ds4.length → fa i < 2) ∧
      (∀ f, f < 2 → ∀ lab ∈ labelsOf ds4,
        |((((groupOf ds4 lab).filter (fun i => decide (fa i = f))).length : ℚ)
            - ((groupOf ds4 lab).length : ℚ) / (2 : ℚ))| ≤ 1) :=
  fold_partitioner_stratified ds4 2 5 (by norm_num) (by decide)

/-- C4: whenever a search succeeds, there is a single Fold Assignment —
the one produced by the Fold Partitioner up front — such that every
candidate's result is its cross-validation under that same assignment, so all
candidates are evaluated on identical folds. -/
theorem search_shared_fold_assignment (ds : Dataset) (cands : List ℕ) (C : ℕ)
    (pos : String) (factory : ClassifierFactory) (seed : ℕ) (sr : SearchResult)
    (h : search ds cands C pos factory seed = Except.ok sr) :
    ∃ fa, partition ds C seed = Except.ok fa ∧
      sr.candidateResults.length = cands.length ∧
      ∀ i, i < cands.length → i < sr.candidateResults.length →
        crossValidate ds C fa pos factory (cands.getD i 0)
          = Except.ok (sr.candidateResults.getD i ⟨0, [], 0, 0, true⟩) := by
  obtain ⟨fa, hp, hcr, _⟩ := search_ok_inv h
  obtain ⟨hlen, hget⟩ := collectResults_map_inv cands sr.candidateResults hcr
  exact ⟨fa, hp, hlen, hget⟩

/-- C4 witness: the concrete two-candidate search, with both candidate
results reproduced by cross-validation under the one shared assignment. -/
theorem search_shared_fold_assignment_witness :
    ∃ fa, partition ds4 2 0 = Except.ok fa ∧
      sr4b.candidateResults.length = ([1, 2] : List ℕ).length ∧
      ∀ i, i < ([1, 2] : List ℕ).length → i < sr4b.candidateResults.length →
        crossValidate ds4 2 fa "P" facP (([1, 2] : List ℕ).getD i 0)
          = Except.ok (sr4b.candidateResults.getD i ⟨0, [], 0, 0, true⟩) :=
  search_shared_fold_assignment ds4 [1, 2] 2 "P" facP 0 sr4b
    (by with_unfolding_all rfl)

/-- C5: the Fold Partitioner is a pure function of the dataset, the fold
count and the seed: equal inputs give equal results, and two successful runs
on equal inputs give pointwise-identical Fold Assignments. -/
theorem fold_partitioner_deterministic (ds1 ds2 : Dataset) (C seed1 seed2 : ℕ)
    (hds : ds1 = ds2) (hseed : seed1 = seed2) :
    partition ds1 C seed1 = partition ds2 C seed2 ∧
    ∀ fa1 fa2, partition ds1 C seed1 = Except.ok fa1 →
      partition ds2 C seed2 = Except.ok fa2 → ∀ i, fa1 i = fa2 i := by
  subst hds
  subst hseed
  refine ⟨rfl, ?_⟩
  intro fa1 fa2 h1 h2 i
  rw [h1] at h2
  injection h2 with h2
  rw [h2]

/-- C5 witness: determinism at the concrete 4-record dataset and seed 5. -/
theorem fold_partitioner_deterministic_witness :
    partition ds4 2 5 = partition ds4 2 5 ∧
    ∀ fa1 fa2, partition ds4 2 5 = Except.ok fa1 →
      partition ds4 2 5 = Except.ok fa2 → ∀ i, fa1 i = fa2 i :=
  fold_partitioner_deterministic ds4 ds4 2 5 5 rfl rfl

/-- C6 counterexample: on the empty pair of label sequences — which contains
no record predicted positive — the Scorer does not return precision 0 with a
flag; it raises `EmptyInputError`, so the claim fails as stated on empty
input. -/
theorem scorer_empty_input_counterexample :
    score [] [] "Malignant" = Except.error SearchError.emptyInput := rfl

/-- C6 (amended: for every nonempty pair of label sequences): when no record
is predicted positive, the Scorer returns precision 0 with the
"no positive predictions" flag set instead of a division error, and when
additionally no record is actually positive, recall is 0 with the
"no actual positives" flag set. -/
theorem scorer_no_positive_predictions (yT yP : List String) (pos : String)
    (hne : (confusionPairs yT yP).length ≠ 0)
    (hnp : ∀ s ∈ yP, s ≠ pos) :
    ∃ r, score yT yP pos = Except.ok r ∧ r.precision = 0 ∧
      r.noPositivePredictions = true ∧
      ((∀ s ∈ yT, s ≠ pos) → r.recallVal = 0 ∧ r.noActualPositives = true) := by
  have htp := truePos_eq_zero yT hnp
  have hfp := falsePos_eq_zero yT hnp
  rw [score_isOk pos hne, htp, hfp]
  refine ⟨_, rfl, ?_, ?_, ?_⟩
  · simp
  · simp
  · intro hnt
    have hfn := falseNeg_eq_zero yP hnt
    rw [hfn]
    exact ⟨by simp, by simp⟩

/-- C6 witness: a nonempty pair with neither predicted nor actual
positives. -/
theorem scorer_no_positive_predictions_witness :
    ∃ r, score ["Benign", "Benign"] ["Benign", "Benign"] "Malignant" = Except.ok r ∧
      r.precision = 0 ∧ r.noPositivePredictions = true ∧
      ((∀ s ∈ ["Benign", "Benign"], s ≠ "Malignant") →
        r.recallVal = 0 ∧ r.noActualPositives = true) :=
  scorer_no_positive_predictions ["Benign", "Benign"] ["Benign", "Benign"] "Malignant"
    (by decide) (by decide)

/-- C7: every non-failed Candidate Result the Cross-Validator produces holds
one Fold Result per fold, its reported mean is the arithmetic mean of the
per-fold accuracies, and its reported standard error (the square root of the
stored squared standard error) is the sample standard deviation of the
per-fold accuracies divided by the square root of the fold count. -/
theorem cross_validator_mean_and_sem (ds : Dataset) (C : ℕ) (fa : FoldAssignment)
    (pos : String) (factory : ClassifierFactory) (k : ℕ) (cr : CandidateResult)
    (hC : 2 ≤ C)
    (h : crossValidate ds C fa pos factory k = Except.ok cr)
    (hfail : cr.failed = false) :
    cr.foldResults.length = C ∧
    ((cr.mean : ℚ) : ℝ)
      = ((cr.foldResults.map (fun fr => (Rat.cast fr.accuracy : ℝ))).sum) / (C : ℝ) ∧
    Real.sqrt ((cr.semSq : ℚ) : ℝ)
      = Real.sqrt
          (((cr.foldResults.map
              (fun fr => ((Rat.cast fr.accuracy : ℝ) - (Rat.cast cr.mean : ℝ)) ^ 2)).sum)
            / ((C : ℝ) - 1))
        / Real.sqrt (C : ℝ) := by
  obtain ⟨frs, hcr, hlen⟩ := crossValidate_ok_inv h hfail
  subst hcr
  dsimp only
  have hlenacc : (frs.map FoldResult.accuracy).length = C := by
    rw [List.length_map, hlen]
  refine ⟨hlen, ?_, ?_⟩
  · rw [listMean, Rat.cast_div, ratCast_list_sum, List.map_map, hlenacc]
    norm_cast
  · have hv : (0 : ℝ) ≤ ((sampleVar (frs.map FoldResult.accuracy) : ℚ) : ℝ) := by
      exact_mod_cast sampleVar_nonneg (frs.map FoldResult.accuracy)
    have hcast : (((sampleVar (frs.map FoldResult.accuracy) / (C : ℚ) : ℚ)) : ℝ)
        = ((sampleVar (frs.map FoldResult.accuracy) : ℚ) : ℝ) / (C : ℝ) := by
      push_cast
      ring
    rw [hcast, Real.sqrt_div hv]
    have hveq : ((sampleVar (frs.map FoldResult.accuracy) : ℚ) : ℝ)
        = ((frs.map (fun fr => ((Rat.cast fr.accuracy : ℝ)
              - (Rat.cast (listMean (frs.map FoldResult.accuracy)) : ℝ)) ^ 2)).sum)
            / ((C : ℝ) - 1) := by
      rw [sampleVar, Rat.cast_div, ratCast_sq_dev_sum, List.map_map, hlenacc]
      have h1 : ((((C - 1 : ℕ)) : ℚ) : ℝ) = (C : ℝ) - 1 := by
        have h2 : (1 : ℕ) ≤ C := by omega
        push_cast [Nat.cast_sub h2]
        ring
      rw [h1]
      rfl
    rw [hveq]

/-- C7 witness: a concrete two-fold cross-validation run. -/
theorem cross_validator_mean_and_sem_witness :
    cr4.foldResults.length = 2 ∧
    ((cr4.mean : ℚ) : ℝ)
      = ((cr4.foldResults.map (fun fr => (Rat.cast fr.accuracy : ℝ))).sum) / ((2 : ℕ) : ℝ) ∧
    Real.sqrt ((cr4.semSq : ℚ) : ℝ)
      = Real.sqrt
          (((cr4.foldResults.map
              (fun fr => ((Rat.cast fr.accuracy : ℝ) - (Rat.cast cr4.mean : ℝ)) ^ 2)).sum)
            / (((2 : ℕ) : ℝ) - 1))
        / Real.sqrt ((2 : ℕ) : ℝ) :=
  cross_validator_mean_and_sem ds4 2 (fun i => i % 2) "P" facP 3 cr4
    (by norm_num) (by with_unfolding_all rfl) rfl

/-- C8: on any 569-record dataset with 357 "Benign" and 212 "Malignant"
records of two numeric features, with fold count 10 and the notebook's grid
of 20 neighbor counts {1, 6, ..., 96}, and a classifier that always fits, the
search succeeds with exactly 20 Candidate Results, each holding exactly 10
Fold Results and none failed, and a single best candidate drawn from the
grid. -/
theorem search_end_to_end_shape (ds : Dataset) (factory : ClassifierFactory) (seed : ℕ)
    (_hlen : ds.length = 569)
    (hcb : (ds.map Record.label).count "Benign" = 357)
    (hcm : (ds.map Record.label).count "Malignant" = 212)
    (hbin : ∀ r ∈ ds, r.label = "Benign" ∨ r.label = "Malignant")
    (_hfeat : ∀ r ∈ ds, r.features.length = 2)
    (htot : ∀ kk X y, (factory kk X y).isSome = true) :
    ∃ sr, search ds gridCandidates 10 "Malignant" factory seed = Except.ok sr ∧
      sr.candidateResults.length = 20 ∧
      (∀ r ∈ sr.candidateResults, r.foldResults.length = 10 ∧ r.failed = false) ∧
      sr.best ∈ sr.candidateResults.map (fun r => r.candidate) := by
  have hmin : ∀ lab ∈ labelsOf ds, 10 ≤ (groupOf ds lab).length := by
    intro lab hlab
    have hlabmem : lab ∈ ds.map Record.label := List.mem_dedup.mp hlab
    obtain ⟨r, hr, hrl⟩ := List.mem_map.mp hlabmem
    rw [length_groupOf]
    rcases hbin r hr with hB | hM
    · rw [← hrl, hB, hcb]
      omega
    · rw [← hrl, hM, hcm]
      omega
  have hfa := @partition_ok ds 10 seed ⟨by norm_num, hmin⟩
  have hBlen : ∀ f, f < 10 → f < (groupOf ds "Benign").length := by
    intro f hf
    rw [length_groupOf, hcb]
    omega
  have hfolds : ∀ k ∈ gridCandidates,
      ∃ cr, crossValidate ds 10
          (fun i => (shuffle seed (groupOf ds (labelAt ds i))).indexOf i % 10)
          "Malignant" factory k = Except.ok cr ∧
        cr.foldResults.length = 10 ∧ cr.failed = false := by
    intro k _
    obtain ⟨cr, hcr, _, hcrlen, hcrfail⟩ := @crossValidate_ok ds 10
      (fun i => (shuffle seed (groupOf ds (labelAt ds i))).indexOf i % 10)
      "Malignant" factory k
      (fun f hf => evalFold_ok htot
        (valIndices_ne_nil (List.mem_range.mp hf) (hBlen f (List.mem_range.mp hf))))
    exact ⟨cr, hcr, hcrlen, hcrfail⟩
  obtain ⟨rs, hrs, hrslen, hall⟩ := collectResults_map_ok
    (fun r => r.foldResults.length = 10 ∧ r.failed = false) gridCandidates hfolds
  have hrs20 : rs.length = 20 := by
    rw [hrslen, gridCandidates, List.length_map, List.length_range]
  have hrs_ne : rs ≠ [] := by
    intro hcon
    rw [hcon] at hrs20
    cases hrs20
  obtain ⟨r0, hr0⟩ := List.exists_mem_of_ne_nil rs hrs_ne
  have hnf_ne : nonFailed rs ≠ [] := by
    have hmem0 : r0 ∈ nonFailed rs := by
      rw [nonFailed]
      exact List.mem_filter.mpr ⟨hr0, by rw [(hall r0 hr0).2]; rfl⟩
    exact List.ne_nil_of_mem hmem0
  obtain ⟨b, hsb⟩ := selectBest_isOk hnf_ne
  obtain ⟨hbmem, _⟩ := selectBest_ok_inv hsb
  have hbrs : b ∈ rs.map (fun r => r.candidate) := by
    obtain ⟨r, hrt, hrb⟩ := List.mem_map.mp hbmem
    have hr1 : r ∈ nonFailed rs := (List.mem_filter.mp (by rw [tiedSet] at hrt; exact hrt)).1
    have hr2 : r ∈ rs := (List.mem_filter.mp (by rw [nonFailed] at hr1; exact hr1)).1
    rw [← hrb]
    exact List.mem_map_of_mem (fun r => r.candidate) hr2
  refine ⟨⟨rs, b⟩, ?_, hrs20, hall, hbrs⟩
  rw [search, hfa]
  dsimp only
  rw [hrs]
  dsimp only
  rw [hsb]

/-- C8 witness: the concrete 569-record dataset with 357 "Benign" and 212
"Malignant" records, two features each, and an always-fitting classifier. -/
theorem search_end_to_end_shape_witness :
    ∃ sr, search ds569 gridCandidates 10 "Malignant" facB 1 = Except.ok sr ∧
      sr.candidateResults.length = 20 ∧
      (∀ r ∈ sr.candidateResults, r.foldResults.length = 10 ∧ r.failed = false) ∧
      sr.best ∈ sr.candidateResults.map (fun r => r.candidate) :=
  search_end_to_end_shape ds569 facB 1 (by decide) (by decide) (by decide)
    (by decide) (by decide) (fun _ _ _ => rfl)

/-- C9 counterexample: the notebook's prediction step
(`cancer_test["predicted"] = knn.predict(...)`, cell 19) adds a `predicted`
column to the test frame it consumes, so the frame's column set changes —
contradicting the claim that no operation adds a column to the dataset it
consumes. -/
theorem prediction_adds_column_counterexample :
    (assignPredicted dfTest ["Malignant", "Benign"]).colNames ≠ dfTest.colNames := by
  decide

/-- C9 (amended): the loaded input dataset (`cancer`) is left unchanged by
every pipeline step — splitting only copies rows out of it, and the train
copy is untouched afterwards; the single mutation in the pipeline is the
prediction step appending the `predicted` column to the test copy. -/
theorem pipeline_preserves_input_dataset (rowsTrain rowsTest : List ℕ)
    (preds : List String) (s : NotebookState) :
    (runPipeline rowsTrain rowsTest preds s).cancer = s.cancer ∧
    (runPipeline rowsTrain rowsTest preds s).train = selectRows s.cancer rowsTrain ∧
    (runPipeline rowsTrain rowsTest preds s).test.cols
      = (selectRows s.cancer rowsTest).cols ++ [("predicted", preds)] :=
  ⟨rfl, rfl, rfl⟩

theorem find?_map_keyfun (g : String × List String → String × List String)
    (hg : ∀ c, (g c).1 = c.1) (n : String) :
    ∀ l : List (String × List String),
      (l.map g).find? (fun c => decide (c.1 = n))
        = (l.find? (fun c => decide (c.1 = n))).map g
  | [] => rfl
  | c :: t => by
    by_cases hc : c.1 = n
    · rw [List.map_cons,
        List.find?_cons_of_pos (t.map g) (by simp [hg c, hc]),
        List.find?_cons_of_pos t (by simp [hc])]
      rfl
    · rw [List.map_cons,
        List.find?_cons_of_neg (t.map g) (by simp [hg c, hc]),
        List.find?_cons_of_neg t (by simp [hc]),
        find?_map_keyfun g hg n t]

/-- C10: the label-cleaning step rewrites the `diagnosis` column exactly by
the mapping M ↦ Malignant, B ↦ Benign, leaves every other diagnosis value
and every other column unchanged, and consequently maps a diagnosis column
drawn from {M, B} into {Malignant, Benign}. -/
theorem label_cleaning_correct (df : DataFrame) :
    (cleanLabels df).getCol "diagnosis"
      = (df.getCol "diagnosis").map (List.map replaceMB) ∧
    (∀ n, n ≠ "diagnosis" → (cleanLabels df).getCol n = df.getCol n) ∧
    replaceMB "M" = "Malignant" ∧ replaceMB "B" = "Benign" ∧
    (∀ s, s ≠ "M" → s ≠ "B" → replaceMB s = s) ∧
    (∀ vals, df.getCol "diagnosis" = some vals →
      (∀ v ∈ vals, v = "M" ∨ v = "B") →
      ∀ w ∈ vals.map replaceMB, w = "Malignant" ∨ w = "Benign") := by
  have hg : ∀ c : String × List String,
      ((if c.1 = "diagnosis" then (c.1, c.2.map replaceMB) else c)).1 = c.1 := by
    intro c
    by_cases hc : c.1 = "diagnosis" <;> simp [hc]
  refine ⟨?_, ?_, rfl, rfl, ?_, ?_⟩
  · simp only [DataFrame.getCol, cleanLabels]
    rw [find?_map_keyfun _ hg "diagnosis" df.cols]
    cases hfind : df.cols.find? (fun c => decide (c.1 = "diagnosis")) with
    | none => rfl
    | some c =>
      have hc : c.1 = "diagnosis" := by simpa using List.find?_some hfind
      simp [hc]
  · intro n hn
    simp only [DataFrame.getCol, cleanLabels]
    rw [find?_map_keyfun _ hg n df.cols]
    cases hfind : df.cols.find? (fun c => decide (c.1 = n)) with
    | none => rfl
    | some c =>
      have hc : c.1 = n := by simpa using List.find?_some hfind
      have hgc : (if c.1 = "diagnosis" then (c.1, c.2.map replaceMB) else c) = c := by
        rw [if_neg (by rw [hc]; exact hn)]
      simp [hgc]
  · intro s h1 h2
    rw [replaceMB, if_neg h1, if_neg h2]
  · intro vals _ hvals w hw
    obtain ⟨v, hv, hvw⟩ := List.mem_map.mp hw
    rcases hvals v hv with hM | hB
    · left
      rw [← hvw, hM]
      rfl
    · right
      rw [← hvw, hB]
      rfl

/-- C10 witness: the cleaning step on a concrete frame with id, diagnosis,
and feature columns. -/
theorem label_cleaning_correct_witness :
    (cleanLabels dfEx).getCol "diagnosis"
      = (dfEx.getCol "diagnosis").map (List.map replaceMB) ∧
    (cleanLabels dfEx).getCol "id" = dfEx.getCol "id" ∧
    (cleanLabels dfEx).getCol "perimeter_mean" = dfEx.getCol "perimeter_mean" ∧
    (∀ w ∈ (["M", "B", "M"] : List String).map replaceMB,
      w = "Malignant" ∨ w = "Benign") :=
  ⟨(label_cleaning_correct dfEx).1,
   (label_cleaning_correct dfEx).2.1 "id" (by decide),
   (label_cleaning_correct dfEx).2.1 "perimeter_mean" (by decide),
   (label_cleaning_correct dfEx).2.2.2.2.2 ["M", "B", "M"] (by decide) (by decide)⟩

end LCR
